import Mathlib

/-
Shallow embedding of src/indexer/src/transactions/database.rs
(cosmos-indexer). Pure data is modelled directly; the chain query client,
the key-value store and the wire codec are external collaborators and enter
as explicit parameters (an oracle for get_block_range / get_block, an
association list for the store, Option fields for decode outcomes).
Machine integers (u64, usize) are modelled as Nat; none of the modelled
arithmetic can overflow at the points the claims touch, and the single
subtraction (mid - 1 in the binary search) is commented at its definition.
-/

/-- MAX_RETRIES constant of database.rs (line 92). -/
def MAX_RETRIES : Nat := 5

/-- BATCH_SIZE constant: how many blocks to search per future (line 520). -/
def BATCH_SIZE : Nat := 500

/-- EXECUTE_SIZE constant: how many futures to execute at once (line 522). -/
def EXECUTE_SIZE : Nat := 10

/-- Type url tag of a bank send message (lines 213, 217). -/
def sendUrl : String := "/cosmos.bank.v1beta1.MsgSend"

/-- Type url tag of an ibc transfer message (lines 237, 242). -/
def transferUrl : String := "/ibc.applications.transfer.v1.MsgTransfer"

/-- CustomCoin record (crate::types, field shape visible in lines 61-64). -/
structure CustomCoin where
  denom : String
  amount : String
deriving DecidableEq, Repr

/-- CustomHeight record (field shape visible in lines 44-51). -/
structure CustomHeight where
  revision_number : Nat
  revision_height : Nat
deriving DecidableEq, Repr

/-- CustomMsgSend record (field shape visible in lines 53-68). -/
structure CustomMsgSend where
  from_address : String
  to_address : String
  amount : List CustomCoin
deriving DecidableEq, Repr

/-- CustomMsgTransfer record (field shape visible in lines 70-90). -/
structure CustomMsgTransfer where
  source_port : String
  source_channel : String
  token : List CustomCoin
  sender : String
  receiver : String
  timeout_height : Option CustomHeight
  timeout_timestamp : Nat
deriving DecidableEq, Repr

/-- One message of a decoded transaction body: its type tag plus the outcomes
of decoding its payload as each of the two recognised shapes (decode_any is
the external codec; a failing decode is none). -/
structure Msg where
  type_url : String
  asSend : Option CustomMsgSend
  asTransfer : Option CustomMsgTransfer
deriving DecidableEq, Repr

/-- One transaction: the content-addressed identifier (uppercase hex sha256
digest of the raw envelope bytes, computed externally, lines 201-202) and the
decoded body messages. Envelope and body unwraps (lines 200, 207, 338, 345)
are outside every claim; the body is taken as given data. -/
structure Tx where
  hash : List Nat
  msgs : List Msg
deriving DecidableEq, Repr

/-- One block: height, header timestamp seconds and transactions. -/
structure BlockM where
  height : Nat
  time : Nat
  txs : List Tx
deriving DecidableEq, Repr

/-- Process-wide counter struct (lines 37-43). -/
structure Counters where
  blocks : Nat
  transactions : Nat
  msgs : Nat
  ibc_msgs : Nat
  send_msgs : Nat
deriving DecidableEq, Repr

/-- Local per-fetch counters of search (lines 183-187). -/
structure BatchCounters where
  tx_counter : Nat
  msg_counter : Nat
  ibc_transfer_counter : Nat
  send_msg_counter : Nat
deriving DecidableEq, Repr

/-- Value persisted under a key: the serialized normalized message
(serde_json serialization is external and injective on these records). -/
inductive StoreVal where
  | send (m : CustomMsgSend)
  | transfer (m : CustomMsgTransfer)
deriving DecidableEq, Repr

/-- The ordered key-value store: association list over byte-string keys. -/
abbrev Store : Type := List (List Nat × StoreVal)

/-- db.put single-key overwrite semantics (lines 570-578). -/
def dbPut : Store → List Nat → StoreVal → Store
  | [], k, v => [(k, v)]
  | (k2, v2) :: rest, k, v =>
      if k2 = k then (k, v) :: rest else (k2, v2) :: dbPut rest k v

/-- Decimal digits, most significant first; fuel-indexed helper whose fuel
argument only bounds the recursion depth. -/
def natDigitsAux : Nat → Nat → List Nat
  | 0, _ => []
  | fuel + 1, n => if n < 10 then [n] else natDigitsAux fuel (n / 10) ++ [n % 10]

/-- Decimal digits of n, most significant first, as produced by display
formatting of an unsigned integer. -/
def natDigits (n : Nat) : List Nat := natDigitsAux (n + 1) n

/-- Digit list of n left-padded with zeros to width 12; numbers with more than
12 digits are not truncated, exactly like the width specifier 012 of format. -/
def padded (n : Nat) : List Nat :=
  List.replicate (12 - (natDigits n).length) 0 ++ natDigits n

/-- Bytes of the formatted height field, width specifier 012 (line 233). -/
def fmt012 (n : Nat) : List Nat := (padded n).map (fun d => 48 + d)

/-- Bytes of an unpadded decimal rendering (the timestamp field). -/
def natBytes (n : Nat) : List Nat := (natDigits n).map (fun d => 48 + d)

/-- ASCII bytes of a string. -/
def strBytes (s : String) : List Nat := s.data.map Char.toNat

/-- Kind component of send keys. -/
def msgSendKind : List Nat := strBytes "msgSend"

/-- Kind component of ibc transfer keys. -/
def msgIbcTransferKind : List Nat := strBytes "msgIbcTransfer"

/-- Persistence key bytes, height : kind : timestamp : txhash with the height
zero-padded to 12 digits (lines 232-233, 258-261, 353, 359-362); 58 is the
colon byte. -/
def msgKey (kind : List Nat) (height ts : Nat) (hash : List Nat) : List Nat :=
  fmt012 height ++ (58 :: kind) ++ (58 :: natBytes ts) ++ (58 :: hash)

/-- Lexicographic byte order, the comparator of the ordered key-value store. -/
def lexLtB : List Nat → List Nat → Bool
  | [], [] => false
  | [], _ :: _ => true
  | _ :: _, [] => false
  | a :: as, b :: bs => if a < b then true else if b < a then false else lexLtB as bs

/-- Numeric value of a most-significant-first digit list (proof helper). -/
def val10 (l : List Nat) : Nat := l.foldl (fun a d => 10 * a + d) 0

/-- State threaded through search: the store, the process-wide counters, the
log of get_block_range calls made (arguments of each call, in order) and a
ghost log of the heights whose per-block processing body ran. -/
structure SearchSt where
  store : Store
  counters : Counters
  callLog : List (Nat × Nat)
  processedBlocks : List Nat
deriving DecidableEq, Repr

/-- Counters all zero, the lazy-static initial value (lines 27-35). -/
def initCounters : Counters := ⟨0, 0, 0, 0, 0⟩

/-- Initial search state: empty store, zero counters, no calls. -/
def initSt : SearchSt := ⟨[], initCounters, [], []⟩

/-- Zeroed per-fetch counters. -/
def initBatch : BatchCounters := ⟨0, 0, 0, 0⟩

/-- Response behaviour of get_block_range, indexed by the call number and the
requested inclusive (start, end) pair; an error models a grpc failure. -/
abbrev Oracle := Nat → Nat → Nat → Except Unit (List BlockM)

/-- Body of the per-message sorting loop of search (lines 212-265): a send tag
counts the message, then persists and counts the send only when the payload
decodes; a transfer tag marks the transaction, counts the message, then
persists only when the payload decodes; any other tag does nothing. The
accumulator is (store, local counters, has_msg_ibc_transfer). -/
def searchMsgStep (block_number ts : Nat) (tx_hash : List Nat)
    (acc : Store × BatchCounters × Bool) (m : Msg) : Store × BatchCounters × Bool :=
  let st := acc.1
  let bc := acc.2.1
  let hasIbc := acc.2.2
  if m.type_url = sendUrl then
    let bc2 := { bc with msg_counter := bc.msg_counter + 1 }
    match m.asSend with
    | some msg =>
        (dbPut st (msgKey msgSendKind block_number ts tx_hash) (.send msg),
         { bc2 with send_msg_counter := bc2.send_msg_counter + 1 }, hasIbc)
    | none => (st, bc2, hasIbc)
  else if m.type_url = transferUrl then
    let bc2 := { bc with msg_counter := bc.msg_counter + 1 }
    match m.asTransfer with
    | some msg =>
        (dbPut st (msgKey msgIbcTransferKind block_number ts tx_hash) (.transfer msg),
         bc2, true)
    | none => (st, bc2, true)
  else acc

/-- Body of the per-transaction loop of search (lines 195-271): all messages,
then the transaction and ibc counters advance when the transaction contained a
transfer-tagged message. -/
def searchTxStep (block_number ts : Nat) (acc : Store × BatchCounters) (tx : Tx) :
    Store × BatchCounters :=
  let r := tx.msgs.foldl (searchMsgStep block_number ts tx.hash) (acc.1, acc.2, false)
  if r.2.2 then
    (r.1, { r.2.1 with tx_counter := r.2.1.tx_counter + 1,
                       ibc_transfer_counter := r.2.1.ibc_transfer_counter + 1 })
  else (r.1, r.2.1)

/-- Per-block processing of search: every transaction of the block, plus the
ghost record of the block height. -/
def searchBlockStep (acc : Store × BatchCounters × List Nat) (b : BlockM) :
    Store × BatchCounters × List Nat :=
  let r := b.txs.foldl (searchTxStep b.height b.time) (acc.1, acc.2.1)
  (r.1, r.2, acc.2.2 ++ [b.height])

/-- For-loop over the fetched blocks (lines 189-276). After each block the
code sets current_start to last_block_height + 1 and breaks when it exceeds
end; since last_block_height is fixed for the whole fetch, the loop stops
after the first block whenever the last fetched height reaches end. -/
def searchProcBlocks (endV last_block_height : Nat) :
    List BlockM → Store × BatchCounters × List Nat → Store × BatchCounters × List Nat
  | [], acc => acc
  | b :: rest, acc =>
      let acc2 := searchBlockStep acc b
      if last_block_height + 1 > endV then acc2
      else searchProcBlocks endV last_block_height rest acc2

/-- Counter merge after one fetch (lines 277-282): blocks advances by the full
fetched length even when the per-block loop broke early. -/
def mergeCounters (c : Counters) (blocks_len : Nat) (bc : BatchCounters) : Counters :=
  { blocks := c.blocks + blocks_len
    transactions := c.transactions + bc.tx_counter
    msgs := c.msgs + bc.msg_counter
    ibc_msgs := c.ibc_msgs + bc.ibc_transfer_counter
    send_msgs := c.send_msgs + bc.send_msg_counter }

/-- Fallback block for the getLastD projection; unreachable because the code
path is guarded by a non-emptiness check, mirroring the source unwrap. -/
def dfltBlock : BlockM := ⟨0, 0, []⟩

/-- Outer fetch-and-retry loop of search (lines 145-283), fuel-indexed because
termination of the source loop depends on the oracle. r carries the retry
counter value before the current failure: fetch_add returns the previous
value, so the loop gives up when that previous value already reached
MAX_RETRIES. A successful fetch resets the counter; an empty fetch ends the
loop. -/
def searchLoop (oracle : Oracle) : Nat → Nat → Nat → Nat → SearchSt → SearchSt
  | 0, _, _, _, st => st
  | fuel + 1, current_start, endV, r, st =>
      let res := oracle st.callLog.length current_start endV
      let st2 : SearchSt := { st with callLog := st.callLog ++ [(current_start, endV)] }
      match res with
      | .error _ =>
          if r ≥ MAX_RETRIES then st2
          else searchLoop oracle fuel current_start endV (r + 1) st2
      | .ok blocks =>
          if blocks.isEmpty then st2
          else
            let last_block_height := (blocks.getLastD dfltBlock).height
            let p := searchProcBlocks endV last_block_height blocks
                       (st2.store, initBatch, [])
            let st3 : SearchSt := { st2 with
                store := p.1
                counters := mergeCounters st2.counters blocks.length p.2.1
                processedBlocks := st2.processedBlocks ++ p.2.2 }
            searchLoop oracle fuel (last_block_height + 1) endV 0 st3

/-- search (lines 138-284): immediate return when start > end, otherwise the
fetch loop starting with a zero retry counter. -/
def search (oracle : Oracle) (fuel start endV : Nat) (st : SearchSt) : SearchSt :=
  if start > endV then st else searchLoop oracle fuel start endV 0 st

/-- Sub-range construction loop of transactions (lines 523-536), fuel-indexed
helper. -/
def subrangesAux : Nat → Nat → Nat → List (Nat × Nat)
  | 0, _, _ => []
  | fuel + 1, pos, end_block =>
      if pos < end_block then
        if end_block - pos > BATCH_SIZE then
          (pos, pos + BATCH_SIZE) :: subrangesAux fuel (pos + BATCH_SIZE) end_block
        else [(pos, end_block)]
      else []

/-- The (start, end) argument pairs of the search futures built by
transactions, in construction order. -/
def subranges (pos end_block : Nat) : List (Nat × Nat) :=
  subrangesAux (end_block - pos) pos end_block

/-- Execution loop over the collected futures (lines 540-554): a future
arriving while the buffer already holds EXECUTE_SIZE entries triggers a join
of the buffer and is itself discarded without ever being pushed or awaited;
the trailing join runs whatever remains buffered. -/
def execGroups : List (Nat × Nat) → List (Nat × Nat) → List (List (Nat × Nat))
  | [], buf => [buf]
  | f :: fs, buf =>
      if buf.length < EXECUTE_SIZE then execGroups fs (buf ++ [f])
      else buf :: execGroups fs []

/-- Groups of sub-ranges actually awaited, in order. -/
def executedBatches (futs : List (Nat × Nat)) : List (List (Nat × Nat)) :=
  execGroups futs []

/-- Sub-ranges whose search future is actually awaited. -/
def executed (futs : List (Nat × Nat)) : List (Nat × Nat) :=
  (executedBatches futs).flatten

/-- Choice of the catch-up start height (lines 500-503): an existing
checkpoint value wins unchanged over the binary-search locator result. -/
def resumeStart (checkpoint : Option Nat) (locator : Nat) : Nat :=
  match checkpoint with
  | some block => block
  | none => locator

/-- End height of the first scheduled sub-range for a given start. -/
def firstEnd (pos end_block : Nat) : Nat :=
  if end_block - pos > BATCH_SIZE then pos + BATCH_SIZE else end_block

/-- Bulk catch-up of transactions (lines 519-566): the awaited sub-range
searches in a sequential linearization (sound here because distinct sub-range
searches touch disjoint heights and counter merges commute), followed by the
unconditional checkpoint write save_last_download_block(db, end_block) of
line 565. The second component is the checkpoint value written. -/
def bulkRun (oracle : Oracle) (fuel earliest end_block : Nat) : SearchSt × Nat :=
  ((executed (subranges earliest end_block)).foldl
      (fun st r => search oracle fuel r.1 r.2 st) initSt,
   end_block)

/-- Sample well-formed normalized send message. -/
def sampleSend : CustomMsgSend := ⟨"addrA", "addrB", [⟨"uabc", "10"⟩]⟩

/-- Block at a given height as served by an ideal node: one transaction whose
body holds one well-formed send message. -/
def mkBlock (h : Nat) : BlockM :=
  ⟨h, 0, [⟨[], [⟨sendUrl, some sampleSend, none⟩]⟩]⟩

/-- Ideal oracle: every get_block_range call succeeds and returns the whole
requested inclusive range in ascending order. -/
def fullOracle : Oracle := fun _ s e =>
  .ok (if s ≤ e then (List.range' s (e + 1 - s)).map mkBlock else [])

/-- Binary-search loop of get_earliest_block (lines 98-110), fuel-indexed.
present mid models get_block(mid) returning Ok(Some); mid - 1 is truncated
subtraction, faithful to u64 at every point the claims reach because their
preconditions make height 0 absent, so present mid forces mid at least 1. -/
def getEarliestAux (present : Nat → Bool) : Nat → Nat → Nat → Nat
  | 0, start, _ => start + 1
  | fuel + 1, start, endV =>
      if start ≤ endV then
        if present (start + (endV - start) / 2) then
          getEarliestAux present fuel start (start + (endV - start) / 2 - 1)
        else getEarliestAux present fuel (start + (endV - start) / 2 + 1) endV
      else start + 1

/-- get_earliest_block (lines 98-110); the fuel endV - start + 1 exceeds the
iteration count of the loop under the claims preconditions. -/
def get_earliest_block (present : Nat → Bool) (start endV : Nat) : Nat :=
  getEarliestAux present (endV - start + 1) start endV

/-- One message of process_block (lines 347-367): decode_any(..).unwrap()
panics when the payload fails to decode, modelled as none; unrecognized tags
fall to the empty match arm. -/
def processMsgFollow (block_number ts : Nat) (tx_hash : List Nat) (store : Store)
    (m : Msg) : Option Store :=
  if m.type_url = sendUrl then
    m.asSend.map (fun msg =>
      dbPut store (msgKey msgSendKind block_number ts tx_hash) (.send msg))
  else if m.type_url = transferUrl then
    m.asTransfer.map (fun msg =>
      dbPut store (msgKey msgIbcTransferKind block_number ts tx_hash) (.transfer msg))
  else some store

/-- Message loop of process_block; none aborts the rest of the block. -/
def processMsgsFollow (block_number ts : Nat) (tx_hash : List Nat) :
    List Msg → Store → Option Store
  | [], store => some store
  | m :: ms, store =>
      match processMsgFollow block_number ts tx_hash store m with
      | some store2 => processMsgsFollow block_number ts tx_hash ms store2
      | none => none

/-- Transaction loop of process_block. -/
def processTxsFollow (block_number ts : Nat) : List Tx → Store → Option Store
  | [], store => some store
  | tx :: txs, store =>
      match processMsgsFollow block_number ts tx.hash tx.msgs store with
      | some store2 => processTxsFollow block_number ts txs store2
      | none => none

/-- process_block (lines 322-369); none models a panic aborting the call. -/
def process_block (b : BlockM) (store : Store) : Option Store :=
  processTxsFollow b.height b.time b.txs store

/-- Outcome of get_block in the follow loop: Ok(Some), Ok(None) or Err. -/
inductive FetchRes where
  | found (b : BlockM)
  | notFound
  | err
deriving DecidableEq, Repr

/-- Per-height body of the follow loop (lines 301-314). The accumulator
carries (attempted heights, successfully processed heights, store); a
process_block panic aborts the whole pass. -/
def followStep (fetch : Nat → FetchRes)
    (acc : Option (List Nat × List Nat × Store)) (h : Nat) :
    Option (List Nat × List Nat × Store) :=
  match acc with
  | none => none
  | some (att, proc, store) =>
      match fetch h with
      | .found b =>
          match process_block b store with
          | some store2 => some (att ++ [h], proc ++ [h], store2)
          | none => none
      | .notFound => some (att ++ [h], proc, store)
      | .err => some (att ++ [h], proc, store)

/-- One pass of the continuous_indexing loop body (lines 289-319): when the
tip exceeds the checkpoint, every height from checkpoint + 1 to tip is fetched
in order and save_last_download_block(db, latest_block) then writes the tip;
otherwise nothing happens. Result: attempted heights, processed heights,
checkpoint after the pass, store. -/
def continuous_indexing_pass (fetch : Nat → FetchRes) (checkpoint tip : Nat)
    (store : Store) : Option (List Nat × List Nat × Nat × Store) :=
  if tip > checkpoint then
    ((List.range' (checkpoint + 1) (tip - checkpoint)).foldl (followStep fetch)
        (some ([], [], store))).map (fun r => (r.1, r.2.1, tip, r.2.2))
  else some ([], [], checkpoint, store)

/-- Oracle failing on the first five calls, returning one block on the sixth
and nothing afterwards. -/
def failFiveOracle : Oracle := fun i _ _ =>
  if i < 5 then .error ()
  else if i = 5 then .ok [mkBlock 0]
  else .ok []

/-- Oracle whose every call fails. -/
def allErrOracle : Oracle := fun _ _ _ => .error ()

/-- Oracle serving one block holding one message with an unrecognized tag. -/
def otherTagOracle : Oracle := fun i _ _ =>
  if i = 0 then .ok [⟨0, 0, [⟨[], [⟨"/foo.v1.Bar", none, none⟩]⟩]⟩] else .ok []

/-- Block with no transactions at a given height. -/
def emptyBlock (h : Nat) : BlockM := ⟨h, 0, []⟩

/-- Follow-loop fetch pattern: height 1 errors, every other height succeeds
with an empty block. -/
def failAt1Fetch : Nat → FetchRes := fun h =>
  if h = 1 then .err else .found (emptyBlock h)

/-- Follow-loop fetch pattern: every height succeeds with an empty block. -/
def foundEmptyFetch : Nat → FetchRes := fun h => .found (emptyBlock h)

/-- Block whose only message carries the send tag with an undecodable payload. -/
def badSendBlock : BlockM := ⟨5, 9, [⟨[], [⟨sendUrl, none, none⟩]⟩]⟩

/-! Theorems. -/

/-- Fuel irrelevance for the digit extractor: any fuel above the argument
yields the same digit list. -/
theorem natDigitsAux_irrel : ∀ f1 f2 n, n < f1 → n < f2 →
    natDigitsAux f1 n = natDigitsAux f2 n := by
  intro f1
  induction f1 with
  | zero => intro f2 n h1 _; omega
  | succ a ih =>
      intro f2 n h1 h2
      cases f2 with
      | zero => omega
      | succ b =>
          simp only [natDigitsAux]
          by_cases hn : n < 10
          · simp [hn]
          · simp only [hn, if_false]
            have hd : n / 10 < n := Nat.div_lt_self (by omega) (by omega)
            rw [ih b (n / 10) (by omega) (by omega)]

/-- Unfolding equation for natDigits. -/
theorem natDigits_eq (n : Nat) :
    natDigits n = if n < 10 then [n] else natDigits (n / 10) ++ [n % 10] := by
  by_cases hn : n < 10
  · simp [natDigits, natDigitsAux, hn]
  · have step : natDigitsAux (n + 1) n = natDigitsAux n (n / 10) ++ [n % 10] := by
      simp [natDigitsAux, hn]
    have irr : natDigitsAux n (n / 10) = natDigitsAux (n / 10 + 1) (n / 10) :=
      natDigitsAux_irrel n (n / 10 + 1) (n / 10)
        (Nat.div_lt_self (by omega) (by omega)) (by omega)
    simp only [natDigits, hn, if_false]
    rw [step, irr]

/-- Every digit produced by natDigits is below 10. -/
theorem natDigits_lt_ten (n : Nat) : ∀ d ∈ natDigits n, d < 10 := by
  induction n using Nat.strong_induction_on with
  | _ n ih =>
      rw [natDigits_eq]
      by_cases hn : n < 10
      · simp [hn]
      · simp only [hn, if_false]
        intro d hd
        rcases List.mem_append.mp hd with h | h
        · exact ih (n / 10) (Nat.div_lt_self (by omega) (by omega)) d h
        · simp at h; omega

/-- Folding the base-10 accumulator from an arbitrary seed. -/
theorem foldl_val_from (l : List Nat) : ∀ a : Nat,
    l.foldl (fun a d => 10 * a + d) a = a * 10 ^ l.length + val10 l := by
  induction l with
  | nil => intro a; simp [val10]
  | cons d l ih =>
      intro a
      simp only [val10, List.foldl_cons, List.length_cons]
      rw [ih (10 * a + d), ih (10 * 0 + d)]
      ring

/-- Value of a cons digit list. -/
theorem val10_cons (d : Nat) (l : List Nat) :
    val10 (d :: l) = d * 10 ^ l.length + val10 l := by
  simp only [val10, List.foldl_cons]
  rw [foldl_val_from l (10 * 0 + d)]
  ring_nf
  rfl

/-- Value bound of a digit list. -/
theorem val10_lt (l : List Nat) (h : ∀ d ∈ l, d < 10) :
    val10 l < 10 ^ l.length := by
  induction l with
  | nil => simp [val10]
  | cons d l ih =>
      rw [val10_cons]
      have hd : d < 10 := h d (by simp)
      have hl : val10 l < 10 ^ l.length := ih (fun x hx => h x (by simp [hx]))
      have : d * 10 ^ l.length + val10 l < (d + 1) * 10 ^ l.length := by nlinarith
      calc d * 10 ^ l.length + val10 l < (d + 1) * 10 ^ l.length := this
        _ ≤ 10 * 10 ^ l.length := by
              have : d + 1 ≤ 10 := by omega
              exact Nat.mul_le_mul_right _ this
        _ = 10 ^ (d :: l).length := by rw [List.length_cons]; ring

/-- Appending one digit multiplies the value by ten and adds the digit. -/
theorem val10_append_digit (l : List Nat) (d : Nat) :
    val10 (l ++ [d]) = 10 * val10 l + d := by
  simp [val10, List.foldl_append]

/-- natDigits is a correct decimal representation. -/
theorem val10_natDigits (n : Nat) : val10 (natDigits n) = n := by
  induction n using Nat.strong_induction_on with
  | _ n ih =>
      rw [natDigits_eq]
      by_cases hn : n < 10
      · simp [hn, val10]
      · simp only [hn, if_false]
        rw [val10_append_digit, ih (n / 10) (Nat.div_lt_self (by omega) (by omega))]
        omega

/-- Digit-count bound: below 10 ^ k a number has at most k digits. -/
theorem natDigits_length_le : ∀ k n, 1 ≤ k → n < 10 ^ k →
    (natDigits n).length ≤ k := by
  intro k
  induction k with
  | zero => intro n h; omega
  | succ j ih =>
      intro n _ hub
      rw [natDigits_eq]
      by_cases hn : n < 10
      · simp [hn]
      · simp only [hn, if_false, List.length_append, List.length_singleton]
        have hj : 1 ≤ j := by
          by_contra hj0
          have : j = 0 := by omega
          subst this
          simp [pow_succ] at hub
          omega
        have hdiv : n / 10 < 10 ^ j := by
          rw [Nat.div_lt_iff_lt_mul (by omega)]
          calc n < 10 ^ (j + 1) := hub
            _ = 10 ^ j * 10 := by ring
        have := ih (n / 10) hj hdiv
        omega

/-- Leading zeros do not change the value. -/
theorem val10_replicate_zero_append (k : Nat) (l : List Nat) :
    val10 (List.replicate k 0 ++ l) = val10 l := by
  induction k with
  | zero => simp
  | succ j ih =>
      have : List.replicate (j + 1) 0 ++ l = 0 :: (List.replicate j 0 ++ l) := by
        simp [List.replicate_succ]
      rw [this, val10_cons, ih]
      simp

/-- Padded digit block of a height below the pad width: exactly 12 digits. -/
theorem padded_length (n : Nat) (h : n < 10 ^ 12) : (padded n).length = 12 := by
  have hle := natDigits_length_le 12 n (by omega) h
  simp [padded, List.length_append, List.length_replicate]
  omega

/-- Padded digit block keeps the numeric value. -/
theorem val10_padded (n : Nat) : val10 (padded n) = n := by
  rw [padded, val10_replicate_zero_append, val10_natDigits]

/-- Every entry of a padded digit block is a digit. -/
theorem padded_lt_ten (n : Nat) : ∀ d ∈ padded n, d < 10 := by
  intro d hd
  rcases List.mem_append.mp hd with h | h
  · rcases List.mem_replicate.mp h with ⟨_, rfl⟩; omega
  · exact natDigits_lt_ten n d h

/-- Core byte-order lemma: equal-length digit blocks compare by value, and the
comparison is decided inside the blocks whatever bytes follow them. -/
theorem lex_digit_blocks : ∀ (as bs u v : List Nat), as.length = bs.length →
    (∀ d ∈ as, d < 10) → (∀ d ∈ bs, d < 10) → val10 as < val10 bs →
    lexLtB (as.map (fun d => 48 + d) ++ u) (bs.map (fun d => 48 + d) ++ v) = true := by
  intro as
  induction as with
  | nil =>
      intro bs u v hlen _ _ hv
      cases bs with
      | nil => simp [val10] at hv
      | cons b bs => simp at hlen
  | cons a as ih =>
      intro bs u v hlen ha hb hv
      cases bs with
      | nil => simp at hlen
      | cons b bs =>
          simp only [List.map_cons, List.cons_append, lexLtB]
          have hlen2 : as.length = bs.length := by simpa using hlen
          rcases Nat.lt_trichotomy a b with hab | hab | hab
          · simp [hab]
          · subst hab
            have hval : val10 as < val10 bs := by
              rw [val10_cons, val10_cons, hlen2] at hv
              omega
            have := ih bs u v hlen2 (fun d hd => ha d (by simp [hd]))
              (fun d hd => hb d (by simp [hd])) hval
            simpa using this
          · exfalso
            have h1 : val10 (a :: as) ≥ a * 10 ^ as.length := by
              rw [val10_cons]; omega
            have h2 : val10 (b :: bs) < (b + 1) * 10 ^ bs.length := by
              rw [val10_cons]
              have := val10_lt bs (fun d hd => hb d (by simp [hd]))
              nlinarith
            have h3 : (b + 1) * 10 ^ bs.length ≤ a * 10 ^ as.length := by
              rw [hlen2]
              exact Nat.mul_le_mul_right _ (by omega)
            omega

/-- Fuel irrelevance for the sub-range builder. -/
theorem subrangesAux_irrel : ∀ f1 f2 pos endB, endB - pos ≤ f1 → endB - pos ≤ f2 →
    subrangesAux f1 pos endB = subrangesAux f2 pos endB := by
  intro f1
  induction f1 with
  | zero =>
      intro f2 pos endB h1 _
      have hpe : ¬ pos < endB := by omega
      cases f2 with
      | zero => rfl
      | succ b => simp [subrangesAux, hpe]
  | succ a ih =>
      intro f2 pos endB h1 h2
      cases f2 with
      | zero =>
          have hpe : ¬ pos < endB := by omega
          simp [subrangesAux, hpe]
      | succ b =>
          simp only [subrangesAux]
          by_cases hpe : pos < endB
          · simp only [hpe, if_true]
            by_cases hbig : endB - pos > BATCH_SIZE
            · simp only [hbig, if_true]
              rw [ih b (pos + BATCH_SIZE) endB (by simp [BATCH_SIZE] at hbig ⊢; omega)
                    (by simp [BATCH_SIZE] at hbig ⊢; omega)]
            · simp [hbig]
          · simp [hpe]

/-- Unfolding equation for subranges, mirroring one pass of the while loop. -/
theorem subranges_eq (pos endB : Nat) :
    subranges pos endB =
      if pos < endB then
        if endB - pos > BATCH_SIZE then
          (pos, pos + BATCH_SIZE) :: subranges (pos + BATCH_SIZE) endB
        else [(pos, endB)]
      else [] := by
  by_cases hpe : pos < endB
  · obtain ⟨k, hk⟩ : ∃ k, endB - pos = k + 1 := ⟨endB - pos - 1, by omega⟩
    have lhs1 : subranges pos endB = subrangesAux (k + 1) pos endB := by
      rw [subranges, hk]
    rw [lhs1]
    simp only [subrangesAux, hpe, if_true]
    by_cases hbig : endB - pos > BATCH_SIZE
    · simp only [hbig, if_true]
      have hrec : subrangesAux k (pos + BATCH_SIZE) endB = subranges (pos + BATCH_SIZE) endB := by
        rw [subranges]
        exact subrangesAux_irrel k (endB - (pos + BATCH_SIZE)) (pos + BATCH_SIZE) endB
          (by simp only [BATCH_SIZE] at hbig hk ⊢; omega) (by omega)
      rw [hrec]
    · simp [hbig]
  · rw [subranges]
    have h0 : endB - pos = 0 := by omega
    simp [h0, subrangesAux, hpe]

/-- Head of the scheduled sub-ranges: the catch-up start opens the first one. -/
theorem subranges_head (pos endB : Nat) (h : pos < endB) :
    (subranges pos endB).head? = some (pos, firstEnd pos endB) := by
  rw [subranges_eq]
  simp only [h, if_true, firstEnd]
  by_cases hbig : endB - pos > BATCH_SIZE
  · simp [hbig]
  · simp [hbig]

/-- C8 (amended): for records at heights that both fit the 12-digit pad, the
key of the smaller height sorts strictly before the key of the larger height
in lexicographic byte order, whatever the kinds, timestamps and transaction
ids are. The unbounded form of the claim fails at the pad width, see the
counterexample. -/
theorem key_order_holds_below_pad_width
    (h1 h2 ts1 ts2 : Nat) (k1 k2 a1 a2 : List Nat)
    (hlt : h1 < h2) (hub : h2 < 10 ^ 12) :
    lexLtB (msgKey k1 h1 ts1 a1) (msgKey k2 h2 ts2 a2) = true := by
  have hlen : (padded h1).length = (padded h2).length := by
    rw [padded_length h1 (by omega), padded_length h2 hub]
  have hval : val10 (padded h1) < val10 (padded h2) := by
    rw [val10_padded, val10_padded]; exact hlt
  have hmain := lex_digit_blocks (padded h1) (padded h2)
    ((58 :: k1) ++ (58 :: natBytes ts1) ++ (58 :: a1))
    ((58 :: k2) ++ (58 :: natBytes ts2) ++ (58 :: a2))
    hlen (padded_lt_ten h1) (padded_lt_ten h2) hval
  simpa [msgKey, fmt012, List.append_assoc] using hmain

/-- Witness for the amended C8 key-order theorem at concrete records. -/
theorem key_order_holds_below_pad_width_witness :
    (41 : Nat) < 43 ∧ (43 : Nat) < 10 ^ 12
    ∧ lexLtB (msgKey msgSendKind 41 5 [65]) (msgKey msgIbcTransferKind 43 7 [66]) = true :=
  ⟨by decide, by norm_num,
   key_order_holds_below_pad_width 41 43 5 7 msgSendKind msgIbcTransferKind [65] [66]
     (by decide) (by norm_num)⟩

/-- C8 counterexample: heights 999999999999 and 1000000000000 with identical
kind, timestamp and transaction id. The key of the smaller height does not
sort before the key of the larger height; the reverse comparison holds, so the
claim about unbounded heights is false at the pad width boundary. -/
theorem key_order_violated_beyond_pad_width :
    (999999999999 : Nat) < 1000000000000
    ∧ lexLtB (msgKey msgSendKind 999999999999 1700000000 [65])
             (msgKey msgSendKind 1000000000000 1700000000 [65]) = false
    ∧ lexLtB (msgKey msgSendKind 1000000000000 1700000000 [65])
             (msgKey msgSendKind 999999999999 1700000000 [65]) = true := by
  refine ⟨by norm_num, by decide, by decide⟩

/-- Correctness shape of the binary-search loop under monotone availability
with cutoff c: the loop always lands on start = c and then returns c + 1. -/
theorem getEarliestAux_correct (c : Nat) (hc : 1 ≤ c) :
    ∀ fuel s e, s ≤ c → c ≤ e + 1 → (e - s < fuel ∨ e < s) →
      getEarliestAux (fun h => decide (c ≤ h)) fuel s e = c + 1 := by
  intro fuel
  induction fuel with
  | zero =>
      intro s e hs he hf
      have hes : e < s := by omega
      have : s = c := by omega
      simp [getEarliestAux, this]
  | succ f ih =>
      intro s e hs he hf
      simp only [getEarliestAux]
      by_cases hse : s ≤ e
      · rw [if_pos hse]
        by_cases hp : c ≤ s + (e - s) / 2
        · rw [if_pos (by simpa using hp)]
          exact ih s (s + (e - s) / 2 - 1) hs (by omega) (by omega)
        · rw [if_neg (by simpa using hp)]
          exact ih (s + (e - s) / 2 + 1) e (by omega) he (by omega)
      · rw [if_neg hse]
        omega

/-- get_earliest_block returns one past the cutoff: with all heights from c on
present and all below absent, and start < c ≤ endV, the result is c + 1, not
the smallest present height c. -/
theorem get_earliest_block_succ (c start endV : Nat) (hs : start < c) (he : c ≤ endV) :
    get_earliest_block (fun h => decide (c ≤ h)) start endV = c + 1 :=
  getEarliestAux_correct c (by omega) (endV - start + 1) start endV (by omega)
    (by omega) (by omega)

/-- C3 (code bug): availability cutoff 1 on the interval 0..2. Height 1 is the
unique smallest present height in the open-closed interval, but
get_earliest_block returns 2. -/
theorem earliest_block_off_by_one :
    get_earliest_block (fun h => decide (1 ≤ h)) 0 2 = 2
    ∧ (fun h => decide (1 ≤ h)) 0 = false
    ∧ (fun h => decide (1 ≤ h)) 1 = true
    ∧ (2 : Nat) ≠ 1 := by
  refine ⟨by decide, by decide, by decide, by decide⟩

/-- C1 (code bug): the interval 0 to 5500 yields eleven sub-ranges of at most
BATCH_SIZE heights, but the execution loop awaits only the first ten; the
eleventh future, arriving while the buffer is full, is discarded unexecuted. -/
theorem scheduler_drops_eleventh_subrange :
    (subranges 0 5500).length = 11
    ∧ (5000, 5500) ∈ subranges 0 5500
    ∧ (5000, 5500) ∉ executed (subranges 0 5500)
    ∧ executedBatches (subranges 0 5500) = [(subranges 0 5500).take 10, []] := by
  refine ⟨by decide, by decide, by decide, by decide⟩

/-- C2 (code bug): bulk catch-up over an ideal node holding heights 0 to 100,
served in one full get_block_range response. The checkpoint written is 100,
yet only the block at height 0 was ever processed and persisted: the per-block
loop of search breaks after the first block because current_start already
exceeds the sub-range end. Height 1 lies strictly below the checkpoint and is
unprocessed, and the last height whose records are persisted is 0, not 100. -/
theorem bulk_checkpoint_unprocessed_heights :
    (bulkRun fullOracle 5 0 100).2 = 100
    ∧ (1 : Nat) < 100
    ∧ (1 : Nat) ∉ (bulkRun fullOracle 5 0 100).1.processedBlocks
    ∧ (bulkRun fullOracle 5 0 100).1.processedBlocks = [0]
    ∧ (bulkRun fullOracle 5 0 100).1.store.map Prod.fst = [msgKey msgSendKind 0 0 []] := by
  refine ⟨by decide, by decide, by decide, by decide, by decide⟩

/-- C10: search called with start > end returns at once, leaving the state
untouched: no get_block_range call is logged, the store and the process-wide
counters are exactly as before. -/
theorem search_empty_range_noop (oracle : Oracle) (fuel start endV : Nat)
    (st : SearchSt) (h : endV < start) : search oracle fuel start endV st = st := by
  simp [search, h]

/-- Witness for the empty-range no-op theorem. -/
theorem search_empty_range_noop_witness :
    (3 : Nat) < 5 ∧ search fullOracle 9 5 3 initSt = initSt :=
  ⟨by decide, search_empty_range_noop fullOracle 9 5 3 initSt (by decide)⟩

/-- C5 counterexample: in the follow path, a block whose only message carries
the send tag with an undecodable payload makes process_block panic (none)
instead of skipping the message and continuing. -/
theorem follow_decode_failure_aborts_block :
    process_block badSendBlock [] = none := by decide

/-- C5 (amended): a message whose payload fails to decode is never persisted,
and only the bulk path keeps going. There, a send-tagged decode failure leaves
the store and the send counter unchanged while the decode-attempt counter
advances and the fold continues; a transfer-tagged decode failure also leaves
the store unchanged and continues, but it still sets has_msg_ibc_transfer
before decoding, so the surrounding transaction advances the transaction and
ibc-transfer counters even though nothing was persisted. In the follow path a
decode failure of either tag aborts block processing. -/
theorem decode_failure_bulk_skips_follow_aborts
    (bn ts : Nat) (hash : List Nat) (st : Store) (bc : BatchCounters) (fl : Bool)
    (ms mt : Msg)
    (hs1 : ms.type_url = sendUrl) (hs2 : ms.asSend = none)
    (ht1 : mt.type_url = transferUrl) (ht2 : mt.asTransfer = none) :
    searchMsgStep bn ts hash (st, bc, fl) ms =
      (st, { bc with msg_counter := bc.msg_counter + 1 }, fl)
    ∧ searchMsgStep bn ts hash (st, bc, fl) mt =
      (st, { bc with msg_counter := bc.msg_counter + 1 }, true)
    ∧ searchTxStep bn ts (st, bc) (Tx.mk hash [mt]) =
      (st, { bc with tx_counter := bc.tx_counter + 1,
                     msg_counter := bc.msg_counter + 1,
                     ibc_transfer_counter := bc.ibc_transfer_counter + 1 })
    ∧ processMsgFollow bn ts hash st ms = none
    ∧ processMsgFollow bn ts hash st mt = none := by
  have hne : transferUrl ≠ sendUrl := by decide
  refine ⟨?_, ?_, ?_, ?_, ?_⟩
  · simp [searchMsgStep, hs1, hs2]
  · simp [searchMsgStep, ht1, ht2, hne]
  · simp [searchTxStep, searchMsgStep, ht1, ht2, hne]
  · simp [processMsgFollow, hs1, hs2]
  · simp [processMsgFollow, ht1, ht2, hne]

/-- Witness for the amended C5 theorem at concrete undecodable send and
transfer messages. -/
theorem decode_failure_bulk_skips_follow_aborts_witness :
    (Msg.mk sendUrl none none).type_url = sendUrl
    ∧ (Msg.mk sendUrl none none).asSend = none
    ∧ (Msg.mk transferUrl none none).type_url = transferUrl
    ∧ (Msg.mk transferUrl none none).asTransfer = none
    ∧ (searchMsgStep 1 2 [] ([], ⟨0, 0, 0, 0⟩, false) (Msg.mk sendUrl none none) =
        ([], ⟨0, 1, 0, 0⟩, false)
      ∧ searchMsgStep 1 2 [] ([], ⟨0, 0, 0, 0⟩, false) (Msg.mk transferUrl none none) =
        ([], ⟨0, 1, 0, 0⟩, true)
      ∧ searchTxStep 1 2 ([], ⟨0, 0, 0, 0⟩) (Tx.mk [] [Msg.mk transferUrl none none]) =
        ([], ⟨1, 1, 1, 0⟩)
      ∧ processMsgFollow 1 2 [] [] (Msg.mk sendUrl none none) = none
      ∧ processMsgFollow 1 2 [] [] (Msg.mk transferUrl none none) = none) :=
  ⟨rfl, rfl, rfl, rfl,
   decode_failure_bulk_skips_follow_aborts 1 2 [] [] ⟨0, 0, 0, 0⟩ false
     (Msg.mk sendUrl none none) (Msg.mk transferUrl none none) rfl rfl rfl rfl⟩

/-- C7 counterexample: a search run over one block holding one message with an
unrecognized tag. The block is processed, yet the process-wide generic message
counter stays at zero and nothing is persisted: the message loop has no arm
for other tags, so they are not counted at all. -/
theorem other_tag_not_counted :
    (search otherTagOracle 5 0 0 initSt).processedBlocks = [0]
    ∧ (search otherTagOracle 5 0 0 initSt).counters =
        { blocks := 1, transactions := 0, msgs := 0, ibc_msgs := 0, send_msgs := 0 }
    ∧ (search otherTagOracle 5 0 0 initSt).store = [] := by
  refine ⟨by decide, by decide, by decide⟩

/-- C7 (amended): a message whose tag is neither the send tag nor the transfer
tag leaves the whole per-message state untouched: nothing is persisted and no
counter, the generic one included, is changed. -/
theorem other_tag_step_identity (bn ts : Nat) (hash : List Nat)
    (acc : Store × BatchCounters × Bool) (m : Msg)
    (hns : m.type_url ≠ sendUrl) (hnt : m.type_url ≠ transferUrl) :
    searchMsgStep bn ts hash acc m = acc := by
  simp [searchMsgStep, hns, hnt]

/-- Witness for the amended C7 theorem at a concrete unrecognized tag. -/
theorem other_tag_step_identity_witness :
    ((Msg.mk "/foo.v1.Bar" none none).type_url ≠ sendUrl)
    ∧ ((Msg.mk "/foo.v1.Bar" none none).type_url ≠ transferUrl)
    ∧ searchMsgStep 1 2 [] ([], ⟨0, 0, 0, 0⟩, false) (Msg.mk "/foo.v1.Bar" none none) =
        ([], ⟨0, 0, 0, 0⟩, false) :=
  ⟨by decide, by decide,
   other_tag_step_identity 1 2 [] ([], ⟨0, 0, 0, 0⟩, false) (Msg.mk "/foo.v1.Bar" none none)
     (by decide) (by decide)⟩

/-- C6 counterexample: an oracle failing exactly five consecutive times. After
those five failed attempts the fetcher does not give up: a sixth
get_block_range call is made (the claim forbids any further call), here it
succeeds and the batch contributes a block; a seventh, empty response then
ends the loop. Seven calls are logged in total. -/
theorem range_fetch_sixth_attempt_made :
    (search failFiveOracle 20 0 0 initSt).callLog.length = 7
    ∧ (search failFiveOracle 20 0 0 initSt).processedBlocks = [0]
    ∧ (search failFiveOracle 20 0 0 initSt).counters.blocks = 1 := by
  refine ⟨by decide, by decide, by decide⟩

/-- A dead follow accumulator stays dead: once a pass panicked, nothing more
is attempted. -/
theorem followFold_none (fetch : Nat → FetchRes) (l : List Nat) :
    l.foldl (followStep fetch) none = none := by
  induction l with
  | nil => rfl
  | cons x l ih => simpa [followStep] using ih

/-- Provenance of processed heights in a follow pass: each one was already
processed or had a fetch outcome other than an error. -/
theorem followFold_proc (fetch : Nat → FetchRes) :
    ∀ (l : List Nat) (a0 r : List Nat × List Nat × Store),
      l.foldl (followStep fetch) (some a0) = some r →
      ∀ x, x ∈ r.2.1 → x ∈ a0.2.1 ∨ fetch x ≠ FetchRes.err := by
  intro l
  induction l with
  | nil =>
      intro a0 r hr x hx
      rw [List.foldl_nil] at hr
      cases Option.some.inj hr
      exact Or.inl hx
  | cons y l ih =>
      intro a0 r hr x hx
      obtain ⟨att, proc, store⟩ := a0
      rw [List.foldl_cons] at hr
      cases hf : fetch y with
      | found b =>
          cases hp : process_block b store with
          | some store2 =>
              have hsteq : followStep fetch (some (att, proc, store)) y =
                  some (att ++ [y], proc ++ [y], store2) := by
                simp [followStep, hf, hp]
              rw [hsteq] at hr
              rcases ih _ _ hr x hx with hmem | hne
              · rcases List.mem_append.mp hmem with h1 | h1
                · exact Or.inl h1
                · right
                  simp only [List.mem_singleton] at h1
                  subst h1
                  simp [hf]
              · exact Or.inr hne
          | none =>
              have hsteq : followStep fetch (some (att, proc, store)) y = none := by
                simp [followStep, hf, hp]
              rw [hsteq, followFold_none] at hr
              exact absurd hr (by simp)
      | notFound =>
          have hsteq : followStep fetch (some (att, proc, store)) y =
              some (att ++ [y], proc, store) := by
            simp [followStep, hf]
          rw [hsteq] at hr
          exact ih _ _ hr x hx
      | err =>
          have hsteq : followStep fetch (some (att, proc, store)) y =
              some (att ++ [y], proc, store) := by
            simp [followStep, hf]
          rw [hsteq] at hr
          exact ih _ _ hr x hx

/-- Provenance of attempted heights in a follow pass: each one was already
attempted or belongs to the scanned interval. -/
theorem followFold_att (fetch : Nat → FetchRes) :
    ∀ (l : List Nat) (a0 r : List Nat × List Nat × Store),
      l.foldl (followStep fetch) (some a0) = some r →
      ∀ x, x ∈ r.1 → x ∈ a0.1 ∨ x ∈ l := by
  intro l
  induction l with
  | nil =>
      intro a0 r hr x hx
      rw [List.foldl_nil] at hr
      cases Option.some.inj hr
      exact Or.inl hx
  | cons y l ih =>
      intro a0 r hr x hx
      obtain ⟨att, proc, store⟩ := a0
      rw [List.foldl_cons] at hr
      have step : ∀ att2 proc2 store2,
          followStep fetch (some (att2, proc2, store2)) y = none ∨
          ∃ proc3 store3,
            followStep fetch (some (att2, proc2, store2)) y =
              some (att2 ++ [y], proc3, store3) := by
        intro att2 proc2 store2
        cases hf : fetch y with
        | found b =>
            cases hp : process_block b store2 with
            | some store3 =>
                right
                exact ⟨proc2 ++ [y], store3, by simp [followStep, hf, hp]⟩
            | none => left; simp [followStep, hf, hp]
        | notFound => right; exact ⟨proc2, store2, by simp [followStep, hf]⟩
        | err => right; exact ⟨proc2, store2, by simp [followStep, hf]⟩
      rcases step att proc store with hdead | ⟨proc3, store3, hsome⟩
      · rw [hdead, followFold_none] at hr
        exact absurd hr (by simp)
      · rw [hsome] at hr
        rcases ih _ _ hr x hx with hmem | hmem
        · rcases List.mem_append.mp hmem with h1 | h1
          · exact Or.inl h1
          · simp only [List.mem_singleton] at h1
            subst h1
            exact Or.inr (by simp)
        · exact Or.inr (by simp [hmem])

/-- C4 counterexample: checkpoint 0, tip 2, the fetch of height 1 errors while
height 2 succeeds. The pass still writes checkpoint 2, past the failed height,
and the next pass with an unmoved tip attempts nothing, so height 1 is not
fetched again. -/
theorem follow_checkpoint_advances_past_failed_height :
    continuous_indexing_pass failAt1Fetch 0 2 [] = some ([1, 2], [2], 2, [])
    ∧ continuous_indexing_pass failAt1Fetch 2 2 [] = some ([], [], 2, []) := by
  refine ⟨by decide, by decide⟩

/-- C4 (amended): a height whose fetch fails inside a follow pass is skipped
for that pass, but the checkpoint is nevertheless advanced to the observed
tip, so the next pass, scanning strictly above that tip, never revisits the
failed height. -/
theorem follow_failed_height_never_retried
    (fetch fetch2 : Nat → FetchRes) (cp tip tip2 h ncp : Nat)
    (att proc : List Nat) (st st2 : Store)
    (r2 : List Nat × List Nat × Nat × Store)
    (hch : cp < h) (hht : h ≤ tip) (hf : fetch h = FetchRes.err)
    (hrun : continuous_indexing_pass fetch cp tip st = some (att, proc, ncp, st2))
    (hrun2 : continuous_indexing_pass fetch2 tip tip2 st2 = some r2) :
    ncp = tip ∧ h ∉ proc ∧ h ∉ r2.1 := by
  have hct : cp < tip := by omega
  rw [continuous_indexing_pass, if_pos hct] at hrun
  obtain ⟨r0, hr0, heq⟩ := Option.map_eq_some'.mp hrun
  have hncp : ncp = tip := by
    have := congrArg (fun q => q.2.2.1) heq
    simpa using this.symm
  have hproc : proc = r0.2.1 := by
    have := congrArg (fun q => q.2.1) heq
    simpa using this.symm
  refine ⟨hncp, ?_, ?_⟩
  · intro hmem
    rcases followFold_proc fetch _ _ _ hr0 h (hproc ▸ hmem) with h1 | h1
    · simp at h1
    · exact h1 hf
  · intro hmem
    by_cases h2 : tip2 > tip
    · rw [continuous_indexing_pass, if_pos h2] at hrun2
      obtain ⟨r1, hr1, heq2⟩ := Option.map_eq_some'.mp hrun2
      have hatt2 : r2.1 = r1.1 := by
        have := congrArg (fun q => q.1) heq2
        simpa using this.symm
      rcases followFold_att fetch2 _ _ _ hr1 h (hatt2 ▸ hmem) with h1 | h1
      · simp at h1
      · have := List.mem_range'_1.mp h1
        omega
    · rw [continuous_indexing_pass, if_neg h2] at hrun2
      cases Option.some.inj hrun2
      simp at hmem

/-- Witness for the amended C4 theorem at a concrete failing height. -/
theorem follow_failed_height_never_retried_witness :
    0 < 1 ∧ 1 ≤ 2 ∧ failAt1Fetch 1 = FetchRes.err
    ∧ (2 = 2 ∧ (1 : Nat) ∉ ([2] : List Nat) ∧ (1 : Nat) ∉ ([3] : List Nat)) :=
  ⟨by decide, by decide, by decide,
   follow_failed_height_never_retried failAt1Fetch foundEmptyFetch 0 2 3 1 2 [1, 2] [2]
     [] [] ([3], [3], 3, []) (by decide) (by decide) (by decide) (by decide) (by decide)⟩

/-- One failed fetch below the retry bound: the call is logged and the loop
retries with the counter advanced. -/
theorem searchLoop_err_step (oracle : Oracle) (fuel cs e r : Nat) (st : SearchSt)
    (ho : oracle st.callLog.length cs e = Except.error ()) (hr : r < MAX_RETRIES) :
    searchLoop oracle (fuel + 1) cs e r st =
      searchLoop oracle fuel cs e (r + 1)
        { st with callLog := st.callLog ++ [(cs, e)] } := by
  simp only [searchLoop, ho]
  rw [if_neg (by omega)]

/-- One failed fetch at the retry bound: the call is logged and the loop gives
up. -/
theorem searchLoop_err_stop (oracle : Oracle) (fuel cs e r : Nat) (st : SearchSt)
    (ho : oracle st.callLog.length cs e = Except.error ()) (hr : r ≥ MAX_RETRIES) :
    searchLoop oracle (fuel + 1) cs e r st =
      { st with callLog := st.callLog ++ [(cs, e)] } := by
  simp only [searchLoop, ho]
  rw [if_pos hr]

/-- An empty successful fetch: the call is logged and the loop ends. -/
theorem searchLoop_ok_empty (oracle : Oracle) (fuel cs e r : Nat) (st : SearchSt)
    (ho : oracle st.callLog.length cs e = Except.ok []) :
    searchLoop oracle (fuel + 1) cs e r st =
      { st with callLog := st.callLog ++ [(cs, e)] } := by
  simp [searchLoop, ho]

/-- C6 (amended): the fetcher gives up only after the sixth consecutive
failure. When the first six calls all fail, exactly six get_block_range calls
are made and nothing else changes: no block contributed, no record persisted,
no counter advanced; the search returns instead of aborting the process. -/
theorem range_fetch_gives_up_after_six_failures
    (oracle : Oracle) (f s e : Nat) (hse : s ≤ e)
    (herr : ∀ i, i < 6 → ∀ a b, oracle i a b = Except.error ()) :
    search oracle (f + 6) s e initSt =
      { initSt with callLog := List.replicate 6 (s, e) } := by
  rw [search, if_neg (by omega)]
  rw [searchLoop_err_step, searchLoop_err_step, searchLoop_err_step,
      searchLoop_err_step, searchLoop_err_step, searchLoop_err_stop]
  all_goals first
    | rfl
    | (exact herr _ (by simp [initSt]) s e)
    | decide

/-- Witness for the amended C6 theorem under an always-failing oracle. -/
theorem range_fetch_gives_up_after_six_failures_witness :
    (0 : Nat) ≤ 0
    ∧ search allErrOracle 6 0 0 initSt = { initSt with callLog := List.replicate 6 (0, 0) } :=
  ⟨by decide,
   range_fetch_gives_up_after_six_failures allErrOracle 0 0 0 (by decide)
     (fun _ _ _ _ => rfl)⟩

/-- Last element of a mapped nonempty height list. -/
theorem getLastD_map_mkBlock : ∀ (l : List Nat) (a : Nat) (d : BlockM),
    ((a :: l).map mkBlock).getLastD d = mkBlock ((a :: l).getLastD 0) := by
  intro l
  induction l with
  | nil => intro a d; rfl
  | cons b l ih =>
      intro a d
      have hb := ih b d
      simp only [List.map_cons, List.getLastD_cons] at hb ⊢
      exact hb

/-- Last element of an ascending inclusive range. -/
theorem getLastD_range' (n s : Nat) : (List.range' s (n + 1)).getLastD 0 = s + n := by
  rw [List.getLastD_eq_getLast?, List.getLast?_range']
  simp

/-- When the last fetched height already reaches the sub-range end, the block
loop of search processes exactly the first block: for an ideal first block at
height cp this persists the one send record of that block, counts one message
and one send, and logs height cp alone. -/
theorem procBlocks_first_only (e1 cp : Nat) (rest : List BlockM) :
    searchProcBlocks e1 e1 (mkBlock cp :: rest) ([], initBatch, []) =
      ([(msgKey msgSendKind cp 0 [], StoreVal.send sampleSend)],
       ⟨0, 1, 0, 1⟩, [cp]) := by
  simp only [searchProcBlocks]
  rw [if_pos (by omega)]
  simp [searchBlockStep, searchTxStep, searchMsgStep, mkBlock, initBatch, dbPut]

/-- One successful nonempty fetch: the call is logged, the blocks are handed
to the per-block loop, the counters are merged, and the loop restarts past the
last fetched height with the retry counter reset. -/
theorem searchLoop_ok_step (oracle : Oracle) (fuel cs e r : Nat) (st : SearchSt)
    (blocks : List BlockM) (lastH : Nat)
    (ho : oracle st.callLog.length cs e = Except.ok blocks)
    (hne : blocks.isEmpty = false)
    (hlast : (blocks.getLastD dfltBlock).height = lastH) :
    searchLoop oracle (fuel + 1) cs e r st =
      searchLoop oracle fuel (lastH + 1) e 0
        { store := (searchProcBlocks e lastH blocks (st.store, initBatch, [])).1
          counters := mergeCounters st.counters blocks.length
            (searchProcBlocks e lastH blocks (st.store, initBatch, [])).2.1
          callLog := st.callLog ++ [(cs, e)]
          processedBlocks := st.processedBlocks ++
            (searchProcBlocks e lastH blocks (st.store, initBatch, [])).2.2 } := by
  simp only [searchLoop, ho, hne, Bool.false_eq_true, if_false]
  rw [hlast]

/-- First iteration of search against the ideal full-range oracle: the first
call fetches the whole inclusive range cp..e1, only the block at cp is
processed and persisted, and a second, empty call ends the loop. -/
theorem search_full_first (f cp e1 : Nat) (hce : cp ≤ e1) :
    search fullOracle (f + 2) cp e1 initSt =
      ⟨[(msgKey msgSendKind cp 0 [], StoreVal.send sampleSend)],
       ⟨e1 + 1 - cp, 0, 1, 0, 1⟩,
       [(cp, e1), (e1 + 1, e1)],
       [cp]⟩ := by
  obtain ⟨k, hk⟩ : ∃ k, e1 + 1 - cp = k + 1 := ⟨e1 - cp, by omega⟩
  have hrange : List.range' cp (e1 + 1 - cp) = cp :: List.range' (cp + 1) k := by
    rw [hk, List.range'_succ]
  have ho1 : fullOracle initSt.callLog.length cp e1 =
      Except.ok (mkBlock cp :: (List.range' (cp + 1) k).map mkBlock) := by
    simp only [fullOracle]
    rw [if_pos hce, hrange, List.map_cons]
  have hlast : ((mkBlock cp :: (List.range' (cp + 1) k).map mkBlock).getLastD dfltBlock).height
      = e1 := by
    rw [show mkBlock cp :: (List.range' (cp + 1) k).map mkBlock
          = (cp :: List.range' (cp + 1) k).map mkBlock from by rw [List.map_cons]]
    rw [getLastD_map_mkBlock]
    rw [show cp :: List.range' (cp + 1) k = List.range' cp (k + 1) from
          (List.range'_succ cp k 1).symm]
    rw [getLastD_range']
    simp only [mkBlock]
    omega
  rw [search, if_neg (by omega)]
  rw [searchLoop_ok_step fullOracle (f + 1) cp e1 0 initSt
        (mkBlock cp :: (List.range' (cp + 1) k).map mkBlock) e1 ho1 rfl hlast]
  rw [show initSt.store = ([] : Store) from rfl]
  rw [procBlocks_first_only]
  rw [searchLoop_ok_empty fullOracle f (e1 + 1) e1 0 _
        (by simp only [fullOracle]; rw [if_neg (by omega)])]
  simp only [initSt, initCounters, mergeCounters]
  simp [← hk]

/-- C9: with an existing checkpoint cp, bulk catch-up starts exactly at cp,
not cp + 1: the locator result is discarded whatever its value, the first
scheduled sub-range opens at cp, and running that sub-range against an ideal
node fetches the already-checkpointed height cp again and re-persists its send
record under its key. -/
theorem resume_starts_at_checkpoint (cp loc endB f : Nat) (h : cp < endB) :
    resumeStart (some cp) loc = cp
    ∧ (subranges cp endB).head? = some (cp, firstEnd cp endB)
    ∧ cp ∈ (search fullOracle (f + 2) cp (firstEnd cp endB) initSt).processedBlocks
    ∧ (msgKey msgSendKind cp 0 [], StoreVal.send sampleSend) ∈
        (search fullOracle (f + 2) cp (firstEnd cp endB) initSt).store := by
  have hce : cp ≤ firstEnd cp endB := by
    unfold firstEnd
    split <;> omega
  have hr := search_full_first f cp (firstEnd cp endB) hce
  refine ⟨rfl, subranges_head cp endB h, ?_, ?_⟩
  · rw [hr]
    simp
  · rw [hr]
    simp

/-- Witness for the C9 resume theorem at a concrete checkpoint below a larger
locator result. -/
theorem resume_starts_at_checkpoint_witness :
    3 < 10
    ∧ (resumeStart (some 3) 7 = 3
      ∧ (subranges 3 10).head? = some (3, firstEnd 3 10)
      ∧ 3 ∈ (search fullOracle 2 3 (firstEnd 3 10) initSt).processedBlocks
      ∧ (msgKey msgSendKind 3 0 [], StoreVal.send sampleSend) ∈
          (search fullOracle 2 3 (firstEnd 3 10) initSt).store) :=
  ⟨by decide, resume_starts_at_checkpoint 3 7 10 0 (by decide)⟩
